import Mathlib

/-!
Shallow embedding of a personal audio-library transcoding pipeline
(`coverfix.py`, `covercp.py`, `opusconv.py`, `opusencode.py`).

Paths are modelled as `String`s (already canonical/absolute, so
`Path.resolve()` is the identity), raw bytes as `List Nat`, and the
filesystem as a boolean oracle `String → Bool` answering "does this
path exist?".  External subprocess collaborators (the encoder, the cue
parser, the cover helpers) are modelled as oracles or as recorded
effects in a trace.
-/

/-! ### Byte-level picture model (mutagen `Picture`) -/

/-- A FLAC/Vorbis picture block as manipulated by mutagen: declared
role (`type`), MIME string, description, geometry fields and the raw
image bytes.  `coverfix.py` and `covercp.py` read and write these. -/
structure Picture where
  type : Nat
  mime : String
  desc : String
  width : Nat
  height : Nat
  depth : Nat
  colors : Nat
  data : List Nat
deriving DecidableEq, Repr

/-! ### `coverfix.py` — `refresh_cover` -/

/-- Outcome of `refresh_cover` (the `error` case of the Python code is
an exception path that never reaches the pure block modelled here). -/
inductive RefreshStatus where
  | skip
  | fixed
  | refreshed
deriving DecidableEq, Repr

/-- Body of the per-picture loop of `refresh_cover`: force type 3
(Front Cover), setting the description only when the type is rewritten. -/
def fixPic (p : Picture) : Picture :=
  if p.type ≠ 3 then { p with type := 3, desc := "Front Cover" } else p

/-- Model of `refresh_cover` from `coverfix.py`.  The argument is the
`metadata_block_picture` field of the opened Opus file: `none` when the
field is absent, otherwise the decoded list of stored picture blocks
(the base64/binary codec round-trips and is not modelled bit-level).
Returns the status string together with the field contents after the
delete-and-re-add refresh cycle. -/
def refresh_cover (field : Option (List Picture)) :
    RefreshStatus × Option (List Picture) :=
  match field with
  | none => (RefreshStatus.skip, none)
  | some pics =>
    let newPics := pics.map fixPic
    let modified := pics.any (fun p => p.type != 3)
    ((if modified then RefreshStatus.fixed else RefreshStatus.refreshed),
      some newPics)

/-! ### `covercp.py` — `extract_cover` and `embed_cover` -/

/-- An opened mutagen tag container as probed by `extract_cover`:
`pictures` is `some l` when the object has a FLAC-style `pictures`
attribute holding the raw data of each picture; `tags` is `some kvs`
when the object has a non-`None` tag dictionary whose frame-style keys
map to frame data bytes; `covr` is `some l` when that dictionary holds
an MP4 `covr` atom list. -/
structure Container where
  pictures : Option (List (List Nat))
  tags : Option (List (String × List Nat))
  covr : Option (List (List Nat))
deriving DecidableEq, Repr

/-- Translation of Python `str.startswith`. -/
def startsWithStr (s pre : String) : Bool :=
  pre.data.isPrefixOf s.data

/-- Model of `extract_cover` from `covercp.py`.  The argument is the result of
`mutagen.File(source_path)` inside the `try` block: `.error` when
opening/scanning raised (the exception is caught, a warning printed,
and `None` returned), `.ok none` when `File` returned `None`, and
`.ok (some audio)` otherwise. -/
def extract_cover (opened : Except String (Option Container)) :
    Option (List Nat) :=
  match opened with
  | Except.error _ => none
  | Except.ok none => none
  | Except.ok (some audio) =>
    match audio.pictures with
    | some (p :: _) => some p
    | _ =>
      match audio.tags with
      | none => none
      | some kvs =>
        match kvs.find? (fun kv => startsWithStr kv.1 "APIC:") with
        | some kv => some kv.2
        | none =>
          match audio.covr with
          | some (c :: _) => some c
          | _ => none

/-- The JPEG magic prefix `FF D8 FF` checked by `embed_cover`. -/
def jpegMagic : List Nat := [0xff, 0xd8, 0xff]

/-- The PNG magic prefix `89 50 4E 47 0D 0A 1A 0A` checked by
`embed_cover`. -/
def pngMagic : List Nat := [0x89, 0x50, 0x4e, 0x47, 0x0d, 0x0a, 0x1a, 0x0a]

/-- The `Picture` block constructed by `embed_cover` in `covercp.py`
for the given image bytes: role 3, description `"Front Cover"`, MIME
sniffed from the magic bytes with `image/jpeg` as the default. -/
def embed_cover (image_data : List Nat) : Picture :=
  { type := 3
    desc := "Front Cover"
    mime :=
      if image_data.take 3 = jpegMagic then "image/jpeg"
      else if image_data.take 8 = pngMagic then "image/png"
      else "image/jpeg"
    width := 0, height := 0, depth := 0, colors := 0
    data := image_data }

/-! ### Path helpers (pathlib semantics on canonical string paths) -/

/-- Pathlib division: `a / b` on canonical paths. -/
def joinPath (a b : String) : String := a ++ "/" ++ b

/-- Index of the last occurrence of a character in a list, if any. -/
def lastIdxOf (c : Char) : List Char → Option Nat
  | [] => none
  | a :: as =>
    match lastIdxOf c as with
    | some i => some (i + 1)
    | none => if a = c then some 0 else none

/-- The final path component (`Path.name`): everything after the last
slash. -/
def nameChars (l : List Char) : List Char :=
  match lastIdxOf '/' l with
  | some i => l.drop (i + 1)
  | none => l

/-- Stem (`Path.stem`) of a bare name: CPython drops the part from the last
dot on, provided that dot is neither the first nor the last character. -/
def stemChars (name : List Char) : List Char :=
  match lastIdxOf '.' name with
  | some i => if 0 < i ∧ i < name.length - 1 then name.take i else name
  | none => name

/-- Suffix (`Path.suffix`) of a bare name: the part from the last dot on,
provided that dot is neither the first nor the last character. -/
def suffixChars (name : List Char) : List Char :=
  match lastIdxOf '.' name with
  | some i => if 0 < i ∧ i < name.length - 1 then name.drop i else []
  | none => []

/-- Stem (`Path.stem`) of a path string. -/
def pathStem (s : String) : String := ⟨stemChars (nameChars s.data)⟩

/-- Suffix (`Path.suffix`) of a path string. -/
def pathSuffix (s : String) : String := ⟨suffixChars (nameChars s.data)⟩

/-- Parent (`Path.parent`) of a canonical path string. -/
def pathParent (s : String) : String :=
  match lastIdxOf '/' s.data with
  | some i => ⟨s.data.take i⟩
  | none => "."

/-- Translation of `Path.relative_to(base)` for a path known to live under `base`:
drop `base` and the separating slash. -/
def relativeToStr (base p : String) : String :=
  ⟨p.data.drop (base.data.length + 1)⟩

/-- Translation of `Path.with_suffix(".opus")`: replace the suffix of the final
component with `.opus`. -/
def withSuffixOpus (s : String) : String :=
  match lastIdxOf '/' s.data with
  | some i => ⟨s.data.take (i + 1) ++ stemChars (s.data.drop (i + 1))⟩ ++ ".opus"
  | none => (⟨stemChars s.data⟩ : String) ++ ".opus"

/-- Translation of Python `str.endswith`. -/
def endsWithStr (s suffix : String) : Bool :=
  suffix.data.isSuffixOf s.data

/-- Translation of Python `str.lower` (ASCII range, which is all the
comparisons in `opusconv.py` ever look at). -/
def lowerStr (s : String) : String := ⟨s.data.map Char.toLower⟩

/-! ### `opusconv.py` — configuration and leaf functions -/

/-- The `DEST_DIR` constant from `opusconv.py` (pathlib normalizes away the
trailing slash of the literal). -/
def DEST_DIR : String := "/home/alice/opus"

/-- The `EXT_LOSSLESS` set from `opusconv.py`. -/
def EXT_LOSSLESS : List String :=
  [".flac", ".wav", ".aiff", ".ape", ".alac", ".tak"]

/-- The `EXT_LOSSY` set from `opusconv.py`. -/
def EXT_LOSSY : List String :=
  [".mp3", ".m4a", ".aac", ".ogg", ".wma"]

/-- Model of `get_bitrate` from `opusconv.py`: lowercase the extension, then
classify it against the lossless and lossy extension sets. -/
def get_bitrate (extension : String) : Option String :=
  let ext := lowerStr extension
  if EXT_LOSSLESS.contains ext then some "96k"
  else if EXT_LOSSY.contains ext then some "192k"
  else none

/-- The character class of `re.sub(r'[<>:"/\\|?*]', '_', ...)` in
`sanitize_filename`. -/
def ILLEGAL_CHARS : List Char := ['<', '>', ':', '\"', '/', '\\', '|', '?', '*']

/-- One character of the `re.sub` substitution. -/
def substChar (c : Char) : Char :=
  if ILLEGAL_CHARS.contains c then '_' else c

/-- Translation of Python `str.strip`: drop whitespace from both ends. -/
def stripChars (l : List Char) : List Char :=
  ((l.dropWhile Char.isWhitespace).reverse.dropWhile Char.isWhitespace).reverse

/-- Model of `sanitize_filename` from `opusconv.py`: substitute each character
illegal in filenames with `_`, then strip surrounding whitespace. -/
def sanitize_filename (name : String) : String :=
  ⟨stripChars (name.data.map substChar)⟩

/-- The extension fallback list of `find_audio_for_cue`. -/
def CUE_EXTS : List String := [".flac", ".ape", ".wav", ".tak", ".mp3", ".m4a"]

/-- Model of `find_audio_for_cue` from `opusconv.py`: try the literal referenced
filename inside the cue's directory, then the referenced stem with each
fallback extension in order; first existing candidate wins.  `fsE` is
the filesystem existence oracle. -/
def find_audio_for_cue (fsE : String → Bool) (cue_dir ref_filename : String) :
    Option String :=
  let ref_path := joinPath cue_dir ref_filename
  if fsE ref_path then some ref_path
  else
    (CUE_EXTS.map (fun ext => joinPath cue_dir (pathStem ref_filename ++ ext))).find?
      fsE

/-! ### Cue data (contract of the external `cueparse.py` collaborator) -/

/-- One track record of the cue parser's JSON output, with exactly the
keys `process_cue` reads (`number`, `title`, `artist`, `start`,
`duration`); `none` models an absent key. -/
structure Track where
  number : Option String
  title : Option String
  artist : Option String
  start : Option ℚ
  duration : Option ℚ
deriving DecidableEq, Repr

/-- The cue parser's JSON output as read by `opusconv.py`: the
single-file flag, the track list, the referenced source filenames and
the album-level metadata fields. -/
structure CueData where
  single_file : Bool
  tracks : List Track
  files : List String
  album : Option String
  date : Option String
  genre : Option String
  disc : Option String
deriving DecidableEq, Repr

/-! ### Effect traces -/

/-- Externally visible side effects of `opusconv.py`: directory
creation and the three helper-subprocess invocations.  An
`opusencode` effect records the arguments handed to `opusencode.py`
(after `run_opusencode` dropped metadata pairs with falsy values). -/
inductive Effect where
  | makedirs (dir : String)
  | opusencode (input output bitrate : String) (start duration : Option ℚ)
      (metadata : List (String × String))
  | covercp (source dest : String)
  | coverfix (dest : String)
deriving DecidableEq, Repr

/-! ### `opusconv.py` — `process_cue` -/

/-- The per-track output filename computed in `process_cue`:
zero-padded number (default `"00"`), `" - "`, sanitized title (default
`"Track <num>"`), `.opus`. -/
def trackOutName (t : Track) : String :=
  let num := t.number.getD "00"
  let title := t.title.getD ("Track " ++ num)
  num ++ " - " ++ sanitize_filename title ++ ".opus"

/-- The per-track output path computed in `process_cue`. -/
def trackOutPath (dest_subdir : String) (t : Track) : String :=
  joinPath dest_subdir (trackOutName t)

/-- The metadata pairs `process_cue` builds for a track, in dict order,
after `run_opusencode` has dropped the pairs with empty values. -/
def metaFor (cd : CueData) (total : Nat) (t : Track) : List (String × String) :=
  let num := t.number.getD "00"
  let title := t.title.getD ("Track " ++ num)
  ([("title", title), ("artist", t.artist.getD ""),
    ("album", cd.album.getD ""), ("track", num ++ "/" ++ toString total),
    ("date", cd.date.getD ""), ("genre", cd.genre.getD ""),
    ("disc", cd.disc.getD "")]).filter (fun kv => !(kv.2 == ""))

/-- The body of `process_cue`'s track loop: skip when the output
already exists; otherwise invoke the encoder and, only when it
succeeds, the cover copy and the cover refresh.  `encodeOk` is the
exit-status oracle of `opusencode.py`, keyed by output path. -/
def trackEffects (fsE encodeOk : String → Bool) (cd : CueData)
    (source_audio bitrate dest_subdir : String) (total : Nat) (t : Track) :
    List Effect :=
  let out_path := trackOutPath dest_subdir t
  if fsE out_path then []
  else
    Effect.opusencode source_audio out_path bitrate (some (t.start.getD 0))
        t.duration (metaFor cd total t) ::
      (if encodeOk out_path then
        [Effect.covercp source_audio out_path, Effect.coverfix out_path]
      else [])

/-- Model of `process_cue` from `opusconv.py`.  `cueData` is the result of
`run_cueparse(cue_path)` (`none` for a missing/falsy record), `cue_dir`
is `cue_path.parent`.  Returns the boolean result together with the
trace of side effects. -/
def process_cue (fsE encodeOk : String → Bool) (cueData : Option CueData)
    (cue_dir dest_subdir : String) : Bool × List Effect :=
  match cueData with
  | none => (false, [])
  | some cd =>
    if !cd.single_file then (false, [])
    else
      match cd.tracks, cd.files with
      | [], _ => (false, [])
      | _ :: _, [] => (false, [])
      | _ :: _, f0 :: _ =>
        match find_audio_for_cue fsE cue_dir f0 with
        | none => (false, [])
        | some source_audio =>
          match get_bitrate (pathSuffix source_audio) with
          | none => (false, [])
          | some bitrate =>
            (true,
              Effect.makedirs dest_subdir ::
                cd.tracks.flatMap
                  (trackEffects fsE encodeOk cd source_audio bitrate dest_subdir
                    cd.tracks.length))

/-! ### `opusconv.py` — `convert_directory` (the Library Walker) -/

/-- One directory yielded by `os.walk`: its path and the names of the
plain files inside it. -/
structure WalkDir where
  root : String
  files : List String
deriving DecidableEq, Repr

/-- Pass 1 of `convert_directory`: for every cue file under the source
root (`rglob("*.cue")`, case-sensitive), parse it; when it describes a
single-file album, resolve each referenced filename and collect the
resolved paths.  `cueparse` is the `run_cueparse` collaborator oracle,
keyed by cue path. -/
def claimedSet (fsE : String → Bool) (cueparse : String → Option CueData)
    (walk : List WalkDir) : List String :=
  walk.flatMap fun d =>
    (d.files.filter (fun f => endsWithStr f ".cue")).flatMap fun f =>
      match cueparse (joinPath d.root f) with
      | some cd =>
        if cd.single_file then cd.files.filterMap (find_audio_for_cue fsE d.root)
        else []
      | none => []

/-- The cue-file loop of pass 2 of `convert_directory` for one
directory: re-parse each `.cue` file (matched case-insensitively here)
and run `process_cue` on single-file albums, with the destination
subdirectory derived from the cue path relative to the source root's
parent. -/
def pass2cueDir (fsE encodeOk : String → Bool)
    (cueparse : String → Option CueData) (source_parent : String)
    (d : WalkDir) : List Effect :=
  (d.files.filter (fun f => endsWithStr (lowerStr f) ".cue")).flatMap fun f =>
    let cue_path := joinPath d.root f
    let dest_subdir := joinPath DEST_DIR (relativeToStr source_parent d.root)
    match cueparse cue_path with
    | some cd =>
      if cd.single_file then
        (process_cue fsE encodeOk (some cd) d.root dest_subdir).2
      else []
    | none => []

/-- The standalone-file branch of pass 2 of `convert_directory` for a
single directory entry: classify by extension, skip files claimed by a
cue, skip already-existing destinations, otherwise create the
destination directory, encode, and on success copy and refresh the
cover. -/
def standaloneFileEffects (fsE encodeOk : String → Bool)
    (claimed : List String) (source_parent root filename : String) :
    List Effect :=
  let source_path := joinPath root filename
  match get_bitrate (pathSuffix source_path) with
  | none => []
  | some bitrate =>
    if claimed.contains source_path then []
    else
      let dest_path :=
        joinPath DEST_DIR (withSuffixOpus (relativeToStr source_parent source_path))
      if fsE dest_path then []
      else
        Effect.makedirs (pathParent dest_path) ::
          Effect.opusencode source_path dest_path bitrate none none [] ::
            (if encodeOk dest_path then
              [Effect.covercp source_path dest_path, Effect.coverfix dest_path]
            else [])

/-- The standalone-file loop of pass 2 for one directory. -/
def pass2standalone (fsE encodeOk : String → Bool) (claimed : List String)
    (source_parent : String) (d : WalkDir) : List Effect :=
  d.files.flatMap (standaloneFileEffects fsE encodeOk claimed source_parent d.root)

/-- Model of `convert_directory` from `opusconv.py` as an effect trace: pass 1
builds the claimed set, pass 2 walks every directory handling its cue
files first and its standalone audio files second.  `source_dir` is the
resolved source root and `walk` the `os.walk` listing of its tree. -/
def convert_directory (fsE encodeOk : String → Bool)
    (cueparse : String → Option CueData) (source_dir : String)
    (walk : List WalkDir) : List Effect :=
  let source_parent := pathParent source_dir
  let claimed := claimedSet fsE cueparse walk
  walk.flatMap fun d =>
    pass2cueDir fsE encodeOk cueparse source_parent d ++
      pass2standalone fsE encodeOk claimed source_parent d

/-! ### Helper lemmas -/

/-- Applying `Char.ofNat` to a valid codepoint round-trips through `toNat`. -/
theorem char_toNat_ofNat_valid (n : Nat) (h : n.isValidChar) :
    (Char.ofNat n).toNat = n := by
  simp [Char.ofNat, h, Char.ofNatAux, Char.toNat, UInt32.toNat]

/-- Lowercasing a character twice equals doing it once. -/
theorem char_toLower_toLower (c : Char) : c.toLower.toLower = c.toLower := by
  unfold Char.toLower
  by_cases h : c.toNat ≥ 65 ∧ c.toNat ≤ 90
  · have hv : (c.toNat + 32).isValidChar := Or.inl (by omega)
    rw [if_pos h, char_toNat_ofNat_valid _ hv, if_neg (by omega)]
  · rw [if_neg h, if_neg h]

/-- Lowercasing a string twice equals doing it once. -/
theorem lowerStr_idem (s : String) : lowerStr (lowerStr s) = lowerStr s := by
  unfold lowerStr
  refine congrArg _ ?_
  rw [List.map_map]
  exact List.map_congr_left (fun c _ => char_toLower_toLower c)

/-! ### C10 — case-insensitive bitrate classification -/

/-- C10: bitrate classification is case-insensitive in the source
extension: for every extension string `e`, the bitrate class of `e`
equals the bitrate class of its lowercase form; in particular `.FLAC`
classifies as lossless (`96k`) and `.Mp3` as lossy (`192k`). -/
theorem C10_get_bitrate_case_insensitive :
    (∀ e : String, get_bitrate e = get_bitrate (lowerStr e)) ∧
    get_bitrate ".FLAC" = some "96k" ∧ get_bitrate ".Mp3" = some "192k" :=
  ⟨fun e => by unfold get_bitrate; rw [lowerStr_idem], by decide, by decide⟩

/-! ### C3 — MIME sniffing in `embed_cover` -/

/-- C3: the MIME declared in the packed picture block is `image/jpeg`
when the bytes begin with `FF D8 FF`, `image/png` when they begin with
`89 50 4E 47 0D 0A 1A 0A`, and `image/jpeg` for any other byte
sequence; the block always declares role 3 and description
`"Front Cover"` (and carries the bytes unmodified). -/
theorem C3_embed_cover_mime :
    (∀ d : List Nat, jpegMagic <+: d → (embed_cover d).mime = "image/jpeg") ∧
    (∀ d : List Nat, pngMagic <+: d → (embed_cover d).mime = "image/png") ∧
    (∀ d : List Nat, ¬jpegMagic <+: d → ¬pngMagic <+: d →
      (embed_cover d).mime = "image/jpeg") ∧
    (∀ d : List Nat, (embed_cover d).type = 3 ∧
      (embed_cover d).desc = "Front Cover" ∧ (embed_cover d).data = d) := by
  refine ⟨fun d h => ?_, fun d h => ?_, fun d h1 h2 => ?_, fun d => ⟨rfl, rfl, rfl⟩⟩
  · have ht : d.take 3 = jpegMagic := (List.prefix_iff_eq_take.mp h).symm
    simp [embed_cover, ht]
  · have ht8 : d.take 8 = pngMagic := (List.prefix_iff_eq_take.mp h).symm
    have ht3 : d.take 3 = [0x89, 0x50, 0x4e] := by
      have : (d.take 8).take 3 = d.take 3 := by
        rw [List.take_take]
        norm_num
      rw [← this, ht8]
      decide
    simp [embed_cover, ht3, ht8, jpegMagic]
  · have ht3 : d.take 3 ≠ jpegMagic := fun hc => h1 (by
      rw [List.prefix_iff_eq_take]
      exact hc.symm)
    have ht8 : d.take 8 ≠ pngMagic := fun hc => h2 (by
      rw [List.prefix_iff_eq_take]
      exact hc.symm)
    simp [embed_cover, ht3, ht8]

/-- Witness for C3 at concrete byte sequences: a JPEG-magic input, a
PNG-magic input and a magicless input. -/
theorem C3_embed_cover_mime_witness :
    (embed_cover [0xff, 0xd8, 0xff, 0x10]).mime = "image/jpeg" ∧
    (embed_cover [0x89, 0x50, 0x4e, 0x47, 0x0d, 0x0a, 0x1a, 0x0a, 0x01]).mime =
      "image/png" ∧
    (embed_cover [0x42]).mime = "image/jpeg" :=
  ⟨C3_embed_cover_mime.1 _ (by decide),
   C3_embed_cover_mime.2.1 _ (by decide),
   C3_embed_cover_mime.2.2.1 _ (by decide) (by decide)⟩

/-! ### C2 — cover extraction dispatch -/

/-- C2: cover extraction dispatches in fixed order and returns the
first match — a non-empty picture list yields the first picture's raw
bytes; else a frame-keyed tag whose key starts with the
attached-picture prefix yields that frame's bytes; else a non-empty
atom-keyed cover list yields its first entry's bytes; else the result
is `none`; and a failure while opening the container (an exception or
a `None` file object) yields `none` rather than propagating. -/
theorem C2_extract_cover_dispatch :
    (∀ msg : String, extract_cover (Except.error msg) = none) ∧
    (extract_cover (Except.ok none) = none) ∧
    (∀ (a : Container) (p : List Nat) (ps : List (List Nat)),
      a.pictures = some (p :: ps) →
      extract_cover (Except.ok (some a)) = some p) ∧
    (∀ a : Container, (a.pictures = none ∨ a.pictures = some []) →
      a.tags = none → extract_cover (Except.ok (some a)) = none) ∧
    (∀ (a : Container) (kvs : List (String × List Nat))
        (kv : String × List Nat),
      (a.pictures = none ∨ a.pictures = some []) → a.tags = some kvs →
      kvs.find? (fun kv => startsWithStr kv.1 "APIC:") = some kv →
      extract_cover (Except.ok (some a)) = some kv.2) ∧
    (∀ (a : Container) (kvs : List (String × List Nat)) (c : List Nat)
        (cs : List (List Nat)),
      (a.pictures = none ∨ a.pictures = some []) → a.tags = some kvs →
      kvs.find? (fun kv => startsWithStr kv.1 "APIC:") = none →
      a.covr = some (c :: cs) →
      extract_cover (Except.ok (some a)) = some c) ∧
    (∀ (a : Container) (kvs : List (String × List Nat)),
      (a.pictures = none ∨ a.pictures = some []) → a.tags = some kvs →
      kvs.find? (fun kv => startsWithStr kv.1 "APIC:") = none →
      (a.covr = none ∨ a.covr = some []) →
      extract_cover (Except.ok (some a)) = none) := by
  refine ⟨fun _ => rfl, rfl, ?_, ?_, ?_, ?_, ?_⟩
  · rintro ⟨pics, tags, covr⟩ p ps hp
    cases hp
    rfl
  · rintro ⟨pics, tags, covr⟩ (hp | hp) ht <;> cases hp <;> cases ht <;> rfl
  · rintro ⟨pics, tags, covr⟩ kvs kv (hp | hp) ht hf <;> cases hp <;> cases ht <;>
      simp [extract_cover, hf]
  · rintro ⟨pics, tags, covr⟩ kvs c cs (hp | hp) ht hf hc <;> cases hp <;>
      cases ht <;> cases hc <;> simp [extract_cover, hf]
  · rintro ⟨pics, tags, covr⟩ kvs (hp | hp) ht hf (hc | hc) <;> cases hp <;>
      cases ht <;> cases hc <;> simp [extract_cover, hf]

/-- Witness for C2: the dispatch on concrete containers — a picture
list, an `APIC:` frame, a `covr` atom, an empty container, and a
failed open. -/
theorem C2_extract_cover_dispatch_witness :
    extract_cover (Except.ok (some ⟨some [[7, 8]], some [("APIC:x", [9])],
      some [[5]]⟩)) = some [7, 8] ∧
    extract_cover (Except.ok (some ⟨none, some [("TIT2", [1]), ("APIC:cover", [9])],
      some [[5]]⟩)) = some [9] ∧
    extract_cover (Except.ok (some ⟨some [], some [("TIT2", [1])],
      some [[5], [6]]⟩)) = some [5] ∧
    extract_cover (Except.ok (some ⟨none, some [("TIT2", [1])], none⟩)) = none ∧
    extract_cover (Except.ok (some ⟨some [], none, none⟩)) = none ∧
    extract_cover (Except.error "corrupt file") = none :=
  ⟨C2_extract_cover_dispatch.2.2.1 _ [7, 8] [] rfl,
   C2_extract_cover_dispatch.2.2.2.2.1 _ _ ("APIC:cover", [9]) (Or.inl rfl) rfl
     (by decide),
   C2_extract_cover_dispatch.2.2.2.2.2.1 _ _ [5] [[6]] (Or.inr rfl) rfl
     (by decide) rfl,
   C2_extract_cover_dispatch.2.2.2.2.2.2 _ _ (Or.inl rfl) rfl (by decide)
     (Or.inl rfl),
   C2_extract_cover_dispatch.2.2.2.1 _ (Or.inr rfl) rfl,
   C2_extract_cover_dispatch.1 "corrupt file"⟩

/-! ### C1 — `refresh_cover` role correction -/

/-- A stored picture list mixing a wrong-role block with a
correct-role block whose description is not `"Front Cover"`. -/
def c1MixedPics : List Picture :=
  [{ type := 8, mime := "image/jpeg", desc := "Artist", width := 0, height := 0,
     depth := 0, colors := 0, data := [1] },
   { type := 3, mime := "image/png", desc := "Back", width := 0, height := 0,
     depth := 0, colors := 0, data := [2] }]

/-- A stored picture list whose blocks all already have role 3. -/
def c1FrontPics : List Picture :=
  [{ type := 3, mime := "image/jpeg", desc := "Back", width := 0, height := 0,
     depth := 0, colors := 0, data := [3] }]

/-- Counterexample to C1 as stated: on a stored list holding one block
of role 8 and one block of role 3 with description `"Back"`, some block
has role ≠ 3 and refresh indeed returns `fixed`, but afterwards not
every stored block has description `"Front Cover"` — the block that
already had role 3 keeps its old description. -/
theorem C1_counterexample :
    (∃ p ∈ c1MixedPics, p.type ≠ 3) ∧
    (refresh_cover (some c1MixedPics)).1 = RefreshStatus.fixed ∧
    ¬(∀ q ∈ ((refresh_cover (some c1MixedPics)).2.getD []),
        q.type = 3 ∧ q.desc = "Front Cover") := by
  decide

/-- C1 amended: if the file has no picture-block field, refresh returns
`skip`; if some stored block has role ≠ 3, refresh returns `fixed`;
after any refresh every stored block has role 3, each block whose
original role was ≠ 3 has been rewritten to role 3 with description
`"Front Cover"`, and each block whose role was already 3 is unchanged
(its description included); if every stored block already has role 3,
refresh returns `refreshed` and the stored blocks are unchanged. -/
theorem C1_refresh_cover_amended :
    (refresh_cover none = (RefreshStatus.skip, none)) ∧
    (∀ pics : List Picture, (∃ p ∈ pics, p.type ≠ 3) →
      (refresh_cover (some pics)).1 = RefreshStatus.fixed) ∧
    (∀ pics : List Picture,
      List.Forall₂
        (fun p q => q.type = 3 ∧
          (p.type ≠ 3 → q = { p with type := 3, desc := "Front Cover" }) ∧
          (p.type = 3 → q = p))
        pics (((refresh_cover (some pics)).2).getD [])) ∧
    (∀ pics : List Picture, (∀ p ∈ pics, p.type = 3) →
      refresh_cover (some pics) = (RefreshStatus.refreshed, some pics)) := by
  refine ⟨rfl, ?_, ?_, ?_⟩
  · intro pics h
    have hany : pics.any (fun p => p.type != 3) = true := by
      rw [List.any_eq_true]
      obtain ⟨p, hp, hne⟩ := h
      exact ⟨p, hp, by simpa using hne⟩
    simp [refresh_cover, hany]
  · intro pics
    have hsnd : ((refresh_cover (some pics)).2).getD [] = pics.map fixPic := by
      simp [refresh_cover]
    rw [hsnd, List.forall₂_map_right_iff]
    rw [List.forall₂_same]
    intro p _
    by_cases h3 : p.type = 3
    · have : fixPic p = p := by simp [fixPic, h3]
      rw [this]
      exact ⟨h3, fun hc => absurd h3 hc, fun _ => rfl⟩
    · have : fixPic p = { p with type := 3, desc := "Front Cover" } := by
        simp [fixPic, h3]
      rw [this]
      exact ⟨rfl, fun _ => rfl, fun hc => absurd hc h3⟩
  · intro pics h
    have hany : pics.any (fun p => p.type != 3) = false := by
      rw [List.any_eq_false]
      intro p hp
      simp [h p hp]
    have hmap : pics.map fixPic = pics := by
      have := List.map_congr_left (l := pics) (f := fixPic) (g := id)
        (fun p hp => by simp [fixPic, h p hp])
      simpa using this
    simp [refresh_cover, hany, hmap]

/-- Witness for C1 amended: the mixed list yields `fixed`; the
all-role-3 list yields `refreshed` with its blocks unchanged. -/
theorem C1_refresh_cover_amended_witness :
    (refresh_cover (some c1MixedPics)).1 = RefreshStatus.fixed ∧
    refresh_cover (some c1FrontPics) = (RefreshStatus.refreshed, some c1FrontPics) :=
  ⟨C1_refresh_cover_amended.2.1 c1MixedPics (by decide),
   C1_refresh_cover_amended.2.2.2 c1FrontPics (by decide)⟩

/-! ### C4 — cue audio resolution -/

/-- C4: resolution returns the literal referenced path when it exists;
otherwise it tries the referenced filename's stem with the fixed
ordered extension list `.flac, .ape, .wav, .tak, .mp3, .m4a` and
returns the first existing candidate, or `none` when no candidate
exists. -/
theorem C4_find_audio_for_cue (fsE : String → Bool) (dir ref : String) :
    (fsE (joinPath dir ref) = true →
      find_audio_for_cue fsE dir ref = some (joinPath dir ref)) ∧
    (fsE (joinPath dir ref) = false →
      find_audio_for_cue fsE dir ref =
        (if fsE (joinPath dir (pathStem ref ++ ".flac")) then
          some (joinPath dir (pathStem ref ++ ".flac"))
        else if fsE (joinPath dir (pathStem ref ++ ".ape")) then
          some (joinPath dir (pathStem ref ++ ".ape"))
        else if fsE (joinPath dir (pathStem ref ++ ".wav")) then
          some (joinPath dir (pathStem ref ++ ".wav"))
        else if fsE (joinPath dir (pathStem ref ++ ".tak")) then
          some (joinPath dir (pathStem ref ++ ".tak"))
        else if fsE (joinPath dir (pathStem ref ++ ".mp3")) then
          some (joinPath dir (pathStem ref ++ ".mp3"))
        else if fsE (joinPath dir (pathStem ref ++ ".m4a")) then
          some (joinPath dir (pathStem ref ++ ".m4a"))
        else none)) := by
  constructor
  · intro h
    simp [find_audio_for_cue, h]
  · intro h
    simp only [find_audio_for_cue, h, Bool.false_eq_true, if_false, CUE_EXTS,
      List.map_cons, List.map_nil, List.find?_cons, List.find?_nil]
    rcases h1 : fsE (joinPath dir (pathStem ref ++ ".flac")) <;>
      rcases h2 : fsE (joinPath dir (pathStem ref ++ ".ape")) <;>
      rcases h3 : fsE (joinPath dir (pathStem ref ++ ".wav")) <;>
      rcases h4 : fsE (joinPath dir (pathStem ref ++ ".tak")) <;>
      rcases h5 : fsE (joinPath dir (pathStem ref ++ ".mp3")) <;>
      rcases h6 : fsE (joinPath dir (pathStem ref ++ ".m4a")) <;>
      simp [h1, h2, h3, h4, h5, h6]

/-- Witness for C4: the spec's own fallback instance — a cue in `/d`
referencing `track.wav` on a filesystem holding only `/d/track.flac`
resolves to `/d/track.flac`; on a filesystem holding the literal
`/d/track.wav`, resolution returns it. -/
theorem C4_find_audio_for_cue_witness :
    find_audio_for_cue (fun s => s == "/d/track.flac") "/d" "track.wav" =
      some "/d/track.flac" ∧
    find_audio_for_cue (fun s => s == "/d/track.wav") "/d" "track.wav" =
      some "/d/track.wav" := by
  constructor
  · rw [(C4_find_audio_for_cue (fun s => s == "/d/track.flac") "/d" "track.wav").2
      (by decide)]
    decide
  · exact (C4_find_audio_for_cue (fun s => s == "/d/track.wav") "/d" "track.wav").1
      (by decide)

/-! ### C6 — track naming and filename sanitization -/

/-- Every character of a stripped list comes from the original list. -/
theorem mem_of_mem_stripChars {l : List Char} {c : Char}
    (h : c ∈ stripChars l) : c ∈ l := by
  unfold stripChars at h
  rw [List.mem_reverse] at h
  have h1 := (List.dropWhile_sublist Char.isWhitespace).mem h
  rw [List.mem_reverse] at h1
  exact (List.dropWhile_sublist Char.isWhitespace).mem h1

/-- A prefix whose head exists shares that head with the full list. -/
theorem prefix_shares_head {l₁ l₂ : List Char} {c : Char} (h : l₁ <+: l₂)
    (hc : l₁.head? = some c) : l₂.head? = some c := by
  obtain ⟨t, rfl⟩ := h
  cases l₁ with
  | nil => simp at hc
  | cons a as => simpa using hc

/-- The stripped list is a prefix of the front-stripped list. -/
theorem stripChars_prefix_dropWhile (l : List Char) :
    stripChars l <+: l.dropWhile Char.isWhitespace := by
  unfold stripChars
  rw [← List.reverse_suffix, List.reverse_reverse]
  exact List.dropWhile_suffix Char.isWhitespace

/-- The first character of a stripped list is not whitespace. -/
theorem stripChars_head_not_white {l : List Char} {c : Char}
    (h : (stripChars l).head? = some c) : c.isWhitespace = false := by
  have h2 := prefix_shares_head (stripChars_prefix_dropWhile l) h
  have h3 := List.head?_dropWhile_not Char.isWhitespace l
  rw [h2] at h3
  exact h3

/-- The last character of a stripped list is not whitespace. -/
theorem stripChars_getLast_not_white {l : List Char} {c : Char}
    (h : (stripChars l).getLast? = some c) : c.isWhitespace = false := by
  unfold stripChars at h
  rw [List.getLast?_reverse] at h
  have h3 := List.head?_dropWhile_not Char.isWhitespace
    (l.dropWhile Char.isWhitespace).reverse
  rw [h] at h3
  exact h3

/-- C6: the per-track output filename is the track number, `" - "`,
the sanitized title and the `.opus` extension; sanitization replaces
each of the characters `< > : " / \ | ? *` with `_` (so none of them
survives) and trims surrounding whitespace; in particular track number
`"03"` with title `"My Song: Pt. 1/2"` yields
`"03 - My Song_ Pt. 1_2.opus"`. -/
theorem C6_track_output_naming :
    (∀ num title : String,
      trackOutName { number := some num, title := some title,
                     artist := none, start := none, duration := none } =
        num ++ " - " ++ sanitize_filename title ++ ".opus") ∧
    (∀ (name : String) (c : Char), c ∈ ILLEGAL_CHARS →
      c ∉ (sanitize_filename name).data) ∧
    (∀ (name : String) (c : Char),
      (sanitize_filename name).data.head? = some c → c.isWhitespace = false) ∧
    (∀ (name : String) (c : Char),
      (sanitize_filename name).data.getLast? = some c →
        c.isWhitespace = false) ∧
    trackOutName { number := some "03", title := some "My Song: Pt. 1/2",
                   artist := none, start := none, duration := none } =
      "03 - My Song_ Pt. 1_2.opus" := by
  refine ⟨fun num title => rfl, ?_, ?_, ?_, by decide⟩
  · intro name c hc hmem
    have h1 : c ∈ name.data.map substChar := mem_of_mem_stripChars hmem
    rw [List.mem_map] at h1
    obtain ⟨x, _, hx⟩ := h1
    unfold substChar at hx
    by_cases hxi : ILLEGAL_CHARS.contains x
    · rw [if_pos hxi] at hx
      rw [← hx] at hc
      simp [ILLEGAL_CHARS] at hc
    · rw [if_neg hxi] at hx
      rw [← hx] at hc
      exact hxi (List.elem_iff.mpr hc)
  · intro name c h
    exact stripChars_head_not_white h
  · intro name c h
    exact stripChars_getLast_not_white h

/-- Witness for C6: the illegal-character and trimming guarantees
evaluated on the concrete title `" My Song: Pt. 1/2 "`. -/
theorem C6_track_output_naming_witness :
    ('/' ∉ (sanitize_filename " My Song: Pt. 1/2 ").data) ∧
    (∀ c : Char, (sanitize_filename " My Song: Pt. 1/2 ").data.head? = some c →
      c.isWhitespace = false) :=
  ⟨C6_track_output_naming.2.1 " My Song: Pt. 1/2 " '/' (by decide),
   fun c hc => C6_track_output_naming.2.2.1 " My Song: Pt. 1/2 " c hc⟩

/-! ### C5 — splitter preconditions -/

/-- C5: each unmet precondition of `process_cue` — no parsed cue data,
no single-file layout, no tracks, no referenced filenames, unresolved
referenced filename, unrecognized source extension — yields failure
with an empty effect trace (no directory creation, no transcode). -/
theorem C5_process_cue_preconditions (fsE encodeOk : String → Bool)
    (cueData : Option CueData) (cue_dir dest : String) :
    (cueData = none →
      process_cue fsE encodeOk cueData cue_dir dest = (false, [])) ∧
    (∀ cd : CueData, cueData = some cd → cd.single_file = false →
      process_cue fsE encodeOk cueData cue_dir dest = (false, [])) ∧
    (∀ cd : CueData, cueData = some cd → cd.tracks = [] →
      process_cue fsE encodeOk cueData cue_dir dest = (false, [])) ∧
    (∀ cd : CueData, cueData = some cd → cd.files = [] →
      process_cue fsE encodeOk cueData cue_dir dest = (false, [])) ∧
    (∀ (cd : CueData) (f0 : String) (rest : List String),
      cueData = some cd → cd.files = f0 :: rest →
      find_audio_for_cue fsE cue_dir f0 = none →
      process_cue fsE encodeOk cueData cue_dir dest = (false, [])) ∧
    (∀ (cd : CueData) (f0 : String) (rest : List String) (p : String),
      cueData = some cd → cd.files = f0 :: rest →
      find_audio_for_cue fsE cue_dir f0 = some p →
      get_bitrate (pathSuffix p) = none →
      process_cue fsE encodeOk cueData cue_dir dest = (false, [])) := by
  refine ⟨?_, ?_, ?_, ?_, ?_, ?_⟩
  · rintro rfl
    rfl
  · rintro cd rfl hsf
    simp only [process_cue, hsf, Bool.not_false, if_true]
  · rintro cd rfl htr
    unfold process_cue
    rcases hsf : cd.single_file <;> simp [hsf, htr]
  · rintro cd rfl hfs
    unfold process_cue
    rcases hsf : cd.single_file <;> rcases htr : cd.tracks <;> simp [hsf, htr, hfs]
  · rintro cd f0 rest rfl hfs hfind
    unfold process_cue
    rcases hsf : cd.single_file <;> rcases htr : cd.tracks <;>
      simp [hsf, htr, hfs, hfind]
  · rintro cd f0 rest p rfl hfs hfind hbit
    unfold process_cue
    rcases hsf : cd.single_file <;> rcases htr : cd.tracks <;>
      simp [hsf, htr, hfs, hfind, hbit]

/-- Witness for C5 at concrete inputs: a missing cue record, a cue
that is not single-file, and a cue whose referenced file does not
resolve all fail with an empty trace. -/
theorem C5_process_cue_preconditions_witness :
    process_cue (fun _ => false) (fun _ => true) none "/a" "/b" = (false, []) ∧
    process_cue (fun _ => false) (fun _ => true)
      (some { single_file := false, tracks := [], files := [], album := none,
              date := none, genre := none, disc := none }) "/a" "/b" =
      (false, []) ∧
    process_cue (fun _ => false) (fun _ => true)
      (some { single_file := true,
              tracks := [{ number := some "01", title := some "T",
                           artist := none, start := some 0, duration := none }],
              files := ["x.flac"], album := none, date := none, genre := none,
              disc := none }) "/a" "/b" = (false, []) :=
  ⟨(C5_process_cue_preconditions _ _ none "/a" "/b").1 rfl,
   (C5_process_cue_preconditions _ _ _ "/a" "/b").2.1 _ rfl rfl,
   (C5_process_cue_preconditions _ _ _ "/a" "/b").2.2.2.2.1 _ "x.flac" [] rfl rfl
     (by decide)⟩

/-! ### C9 — transcode failure isolation -/

/-- C9: when the transcode for a track fails, no cover-copy and no
cover-refresh effect is produced for that track, and the per-track
loop still processes the remaining tracks. -/
theorem C9_transcode_failure_isolation (fsE encodeOk : String → Bool)
    (cd : CueData) (src br dest : String) (total : Nat) (t : Track)
    (ts : List Track) :
    encodeOk (trackOutPath dest t) = false →
    (∀ s d : String,
      Effect.covercp s d ∉ trackEffects fsE encodeOk cd src br dest total t) ∧
    (∀ d : String,
      Effect.coverfix d ∉ trackEffects fsE encodeOk cd src br dest total t) ∧
    ((t :: ts).flatMap (trackEffects fsE encodeOk cd src br dest total) =
      trackEffects fsE encodeOk cd src br dest total t ++
        ts.flatMap (trackEffects fsE encodeOk cd src br dest total)) := by
  intro henc
  refine ⟨?_, ?_, List.flatMap_cons t ts _⟩
  · intro s d hmem
    unfold trackEffects at hmem
    rcases hfs : fsE (trackOutPath dest t) <;> simp [hfs, henc] at hmem
  · intro d hmem
    unfold trackEffects at hmem
    rcases hfs : fsE (trackOutPath dest t) <;> simp [hfs, henc] at hmem

/-- Witness for C9: concrete one-failing-track scenario — the failing
track produces no cover effects and the loop equation holds. -/
theorem C9_transcode_failure_isolation_witness :
    (∀ s d : String,
      Effect.covercp s d ∉
        trackEffects (fun _ => false) (fun _ => false)
          { single_file := true, tracks := [], files := [], album := none,
            date := none, genre := none, disc := none }
          "/a/x.flac" "96k" "/b" 1
          { number := some "01", title := some "T", artist := none,
            start := some 0, duration := none }) ∧
    (∀ d : String,
      Effect.coverfix d ∉
        trackEffects (fun _ => false) (fun _ => false)
          { single_file := true, tracks := [], files := [], album := none,
            date := none, genre := none, disc := none }
          "/a/x.flac" "96k" "/b" 1
          { number := some "01", title := some "T", artist := none,
            start := some 0, duration := none }) :=
  ⟨(C9_transcode_failure_isolation (fun _ => false) (fun _ => false) _
      "/a/x.flac" "96k" "/b" 1 _ [] rfl).1,
   (C9_transcode_failure_isolation (fun _ => false) (fun _ => false) _
      "/a/x.flac" "96k" "/b" 1 _ [] rfl).2.1⟩

/-! ### C7 — claimed-set exclusion -/

/-- Every encode effect emitted by the track loop carries a start
offset, so a whole-file (trimless) transcode never comes from a track. -/
theorem opusencode_trimless_not_in_trackEffects
    (fsE encodeOk : String → Bool) (cd : CueData) (src br dest : String)
    (total : Nat) (t : Track) (i o b : String) (du : Option ℚ)
    (m : List (String × String)) :
    Effect.opusencode i o b none du m ∉
      trackEffects fsE encodeOk cd src br dest total t := by
  unfold trackEffects
  rcases hfs : fsE (trackOutPath dest t) <;>
    rcases henc : encodeOk (trackOutPath dest t) <;> simp [hfs, henc]

/-- The effect trace of `process_cue` is empty or a `makedirs`
followed by the per-track effects. -/
theorem process_cue_snd_cases (fsE encodeOk : String → Bool)
    (cueData : Option CueData) (cue_dir dest : String) :
    (process_cue fsE encodeOk cueData cue_dir dest).2 = [] ∨
    ∃ (cd : CueData) (src br : String),
      (process_cue fsE encodeOk cueData cue_dir dest).2 =
        Effect.makedirs dest ::
          cd.tracks.flatMap
            (trackEffects fsE encodeOk cd src br dest cd.tracks.length) := by
  unfold process_cue
  split
  · exact Or.inl rfl
  · split
    · exact Or.inl rfl
    · split
      · exact Or.inl rfl
      · exact Or.inl rfl
      · split
        · exact Or.inl rfl
        · split
          · exact Or.inl rfl
          · exact Or.inr ⟨_, _, _, rfl⟩

/-- A whole-file (trimless) transcode never appears in the trace of
`process_cue`. -/
theorem opusencode_trimless_not_in_process_cue (fsE encodeOk : String → Bool)
    (cueData : Option CueData) (cue_dir dest : String) (i o b : String)
    (du : Option ℚ) (m : List (String × String)) :
    Effect.opusencode i o b none du m ∉
      (process_cue fsE encodeOk cueData cue_dir dest).2 := by
  rcases process_cue_snd_cases fsE encodeOk cueData cue_dir dest with
    h | ⟨cd, src, br, h⟩ <;> rw [h]
  · simp
  · intro hmem
    rcases List.mem_cons.mp hmem with heq | hmem
    · exact Effect.noConfusion heq
    · obtain ⟨t, _, hmem⟩ := List.mem_flatMap.mp hmem
      exact opusencode_trimless_not_in_trackEffects fsE encodeOk cd src br
        dest cd.tracks.length t i o b du m hmem


/-- Any encode effect in a standalone-file trace targets exactly the
walked file, which the claimed set does not contain. -/
theorem opusencode_in_standalone_unclaimed (fsE encodeOk : String → Bool)
    (claimed : List String) (sp root f i o b : String) (s du : Option ℚ)
    (m : List (String × String)) :
    Effect.opusencode i o b s du m ∈
      standaloneFileEffects fsE encodeOk claimed sp root f →
    i = joinPath root f ∧ claimed.contains i = false := by
  intro hmem
  simp only [standaloneFileEffects] at hmem
  split at hmem
  · exact absurd hmem (List.not_mem_nil _)
  · by_cases hcl : claimed.contains (joinPath root f) = true
    · rw [if_pos hcl] at hmem
      exact absurd hmem (List.not_mem_nil _)
    · rw [if_neg hcl] at hmem
      have hcl' : claimed.contains (joinPath root f) = false :=
        Bool.eq_false_iff.mpr hcl
      by_cases hfs : fsE (joinPath DEST_DIR
          (withSuffixOpus (relativeToStr sp (joinPath root f)))) = true
      · rw [if_pos hfs] at hmem
        exact absurd hmem (List.not_mem_nil _)
      · rw [if_neg hfs] at hmem
        rcases List.mem_cons.mp hmem with heq | hmem
        · exact Effect.noConfusion heq
        · rcases List.mem_cons.mp hmem with heq | hmem
          · have hi := (Effect.opusencode.inj heq).1
            exact ⟨hi, hi ▸ hcl'⟩
          · by_cases henc : encodeOk (joinPath DEST_DIR
                (withSuffixOpus (relativeToStr sp (joinPath root f)))) = true
            · rw [if_pos henc] at hmem
              rcases List.mem_cons.mp hmem with heq | hmem
              · exact Effect.noConfusion heq
              · rcases List.mem_cons.mp hmem with heq | hmem
                · exact Effect.noConfusion heq
                · exact absurd hmem (List.not_mem_nil _)
            · rw [if_neg henc] at hmem
              exact absurd hmem (List.not_mem_nil _)

/-- C7: a source file resolved from a single-file cue is placed in the
claimed set by pass 1, and the Library Walker never emits a standalone
(whole-file, trimless) transcode of it. -/
theorem C7_claimed_set_exclusion (fsE encodeOk : String → Bool)
    (cueparse : String → Option CueData) (source_dir : String)
    (walk : List WalkDir) (d : WalkDir) (f : String) (cd : CueData)
    (ref p : String) :
    d ∈ walk → f ∈ d.files → endsWithStr f ".cue" = true →
    cueparse (joinPath d.root f) = some cd → cd.single_file = true →
    ref ∈ cd.files → find_audio_for_cue fsE d.root ref = some p →
    p ∈ claimedSet fsE cueparse walk ∧
    ∀ (out br : String) (du : Option ℚ) (meta : List (String × String)),
      Effect.opusencode p out br none du meta ∉
        convert_directory fsE encodeOk cueparse source_dir walk := by
  intro hd hf hcue hparse hsingle href hfind
  have hclaimed : p ∈ claimedSet fsE cueparse walk := by
    unfold claimedSet
    rw [List.mem_flatMap]
    refine ⟨d, hd, ?_⟩
    rw [List.mem_flatMap]
    refine ⟨f, List.mem_filter.mpr ⟨hf, hcue⟩, ?_⟩
    rw [hparse]
    show p ∈ if cd.single_file = true then
      List.filterMap (find_audio_for_cue fsE d.root) cd.files else []
    rw [if_pos hsingle]
    exact List.mem_filterMap.mpr ⟨ref, href, hfind⟩
  refine ⟨hclaimed, ?_⟩
  intro out br du meta hmem
  unfold convert_directory at hmem
  obtain ⟨d', _, hmem⟩ := List.mem_flatMap.mp hmem
  rcases List.mem_append.mp hmem with hmem | hmem
  · unfold pass2cueDir at hmem
    obtain ⟨f', _, hmem⟩ := List.mem_flatMap.mp hmem
    rcases hcp : cueparse (joinPath d'.root f') with _ | cd'
    · simp only [hcp] at hmem
      exact absurd hmem (List.not_mem_nil _)
    · simp only [hcp] at hmem
      rcases hsf : cd'.single_file with _ | _
      · simp only [hsf, Bool.false_eq_true, if_false] at hmem
        exact absurd hmem (List.not_mem_nil _)
      · simp only [hsf, if_true] at hmem
        exact opusencode_trimless_not_in_process_cue fsE encodeOk (some cd')
          d'.root _ p out br du meta hmem
  · unfold pass2standalone at hmem
    obtain ⟨f', _, hmem⟩ := List.mem_flatMap.mp hmem
    have h2 := (opusencode_in_standalone_unclaimed fsE encodeOk
      (claimedSet fsE cueparse walk) (pathParent source_dir) d'.root f'
      p out br none du meta hmem).2
    have h3 : (claimedSet fsE cueparse walk).contains p = true :=
      List.elem_iff.mpr hclaimed
    rw [h3] at h2
    exact Bool.noConfusion h2

/-! ### Concrete walker scenario used by the closed instances -/

/-- A one-directory source tree holding `album.cue` and `album.flac`. -/
def exWalk : List WalkDir := [{ root := "/music/A", files := ["album.cue", "album.flac"] }]

/-- The single track of the example cue. -/
def exTrack : Track :=
  { number := some "01", title := some "T", artist := none, start := some 0,
    duration := none }

/-- The parsed example cue: single-file, one track, referencing
`album.flac`. -/
def exCue : CueData :=
  { single_file := true, tracks := [exTrack], files := ["album.flac"],
    album := some "Al", date := none, genre := none, disc := none }

/-- Cue-parser oracle of the example: only `/music/A/album.cue` parses. -/
def exParse : String → Option CueData :=
  fun s => if s = "/music/A/album.cue" then some exCue else none

/-- Filesystem oracle on which only the source audio file exists. -/
def exFsSrc : String → Bool := fun s => s == "/music/A/album.flac"

/-- Filesystem oracle on which every path exists (second, idempotent
run). -/
def exFsAll : String → Bool := fun _ => true

/-- Encoder oracle that always succeeds. -/
def exEncOk : String → Bool := fun _ => true

/-- Witness for C7 on the concrete scenario: `album.flac` is claimed
by `album.cue`, and no trimless transcode of it occurs in the walk. -/
theorem C7_claimed_set_exclusion_witness :
    "/music/A/album.flac" ∈ claimedSet exFsSrc exParse exWalk ∧
    Effect.opusencode "/music/A/album.flac" "/home/alice/opus/A/album.opus"
        "96k" none none [] ∉
      convert_directory exFsSrc exEncOk exParse "/music/A" exWalk :=
  have h := C7_claimed_set_exclusion exFsSrc exEncOk exParse "/music/A" exWalk
    { root := "/music/A", files := ["album.cue", "album.flac"] } "album.cue"
    exCue "album.flac" "/music/A/album.flac" (by decide) (by decide) (by decide)
    (by decide) (by decide) (by decide) (by decide)
  ⟨h.1, h.2 "/home/alice/opus/A/album.opus" "96k" none []⟩

/-! ### C8 — destination existence as the idempotence marker -/

/-- A track whose output already exists produces no effects. -/
theorem trackEffects_eq_nil_of_dest_exists (fsE encodeOk : String → Bool)
    (cd : CueData) (src br dest : String) (total : Nat) (t : Track)
    (h : fsE (trackOutPath dest t) = true) :
    trackEffects fsE encodeOk cd src br dest total t = [] := by
  unfold trackEffects
  rw [if_pos h]

/-- A standalone file whose destination already exists produces no
effects. -/
theorem standaloneFileEffects_eq_nil_of_dest_exists
    (fsE encodeOk : String → Bool) (claimed : List String) (sp root f : String)
    (h : fsE (joinPath DEST_DIR
      (withSuffixOpus (relativeToStr sp (joinPath root f)))) = true) :
    standaloneFileEffects fsE encodeOk claimed sp root f = [] := by
  simp only [standaloneFileEffects]
  split
  · rfl
  · by_cases hcl : claimed.contains (joinPath root f) = true
    · rw [if_pos hcl]
    · rw [if_neg hcl, if_pos h]

/-- The first component of a path join is a character-level prefix of
the join. -/
theorem data_prefix_of_joinPath (a b : String) : a.data <+: (joinPath a b).data := by
  unfold joinPath
  rw [String.data_append, String.data_append]
  exact ⟨"/".data ++ b.data, by simp⟩

/-- C8: an already-existing destination suppresses the transcode, for
cue tracks and for standalone files; consequently a run against a
filesystem on which the whole destination tree already exists emits
nothing but `makedirs` calls on already-existing directories — no
additional writes. -/
theorem C8_destination_existence_idempotence :
    (∀ (fsE encodeOk : String → Bool) (cd : CueData) (src br dest : String)
        (total : Nat) (t : Track), fsE (trackOutPath dest t) = true →
      trackEffects fsE encodeOk cd src br dest total t = []) ∧
    (∀ (fsE encodeOk : String → Bool) (claimed : List String)
        (sp root f : String),
      fsE (joinPath DEST_DIR
        (withSuffixOpus (relativeToStr sp (joinPath root f)))) = true →
      standaloneFileEffects fsE encodeOk claimed sp root f = []) ∧
    (∀ (fsE encodeOk : String → Bool) (cueparse : String → Option CueData)
        (source_dir : String) (walk : List WalkDir),
      (∀ q : String, DEST_DIR.data <+: q.data → fsE q = true) →
      ∀ e ∈ convert_directory fsE encodeOk cueparse source_dir walk,
        ∃ dd, e = Effect.makedirs dd ∧ fsE dd = true) := by
  refine ⟨trackEffects_eq_nil_of_dest_exists,
    standaloneFileEffects_eq_nil_of_dest_exists, ?_⟩
  intro fsE encodeOk cueparse source_dir walk H e hmem
  unfold convert_directory at hmem
  obtain ⟨d', _, hmem⟩ := List.mem_flatMap.mp hmem
  rcases List.mem_append.mp hmem with hmem | hmem
  · unfold pass2cueDir at hmem
    obtain ⟨f', _, hmem⟩ := List.mem_flatMap.mp hmem
    rcases hcp : cueparse (joinPath d'.root f') with _ | cd'
    · simp only [hcp] at hmem
      exact absurd hmem (List.not_mem_nil _)
    · simp only [hcp] at hmem
      rcases hsf : cd'.single_file with _ | _
      · simp only [hsf, Bool.false_eq_true, if_false] at hmem
        exact absurd hmem (List.not_mem_nil _)
      · simp only [hsf, if_true] at hmem
        rcases process_cue_snd_cases fsE encodeOk (some cd') d'.root
            (joinPath DEST_DIR (relativeToStr (pathParent source_dir) d'.root))
          with hnil | ⟨cd2, src2, br2, heq⟩
        · rw [hnil] at hmem
          exact absurd hmem (List.not_mem_nil _)
        · rw [heq] at hmem
          rcases List.mem_cons.mp hmem with heq2 | hmem
          · exact ⟨_, heq2, H _ (data_prefix_of_joinPath _ _)⟩
          · obtain ⟨t, _, hmem⟩ := List.mem_flatMap.mp hmem
            rw [trackEffects_eq_nil_of_dest_exists fsE encodeOk cd2 src2 br2 _
              cd2.tracks.length t (H _ ((data_prefix_of_joinPath _ _).trans
                (data_prefix_of_joinPath _ _)))] at hmem
            exact absurd hmem (List.not_mem_nil _)
  · unfold pass2standalone at hmem
    obtain ⟨f', _, hmem⟩ := List.mem_flatMap.mp hmem
    rw [standaloneFileEffects_eq_nil_of_dest_exists fsE encodeOk _ _ _ f'
      (H _ (data_prefix_of_joinPath _ _))] at hmem
    exact absurd hmem (List.not_mem_nil _)

/-- Witness for C8 on the concrete scenario: with every destination
pre-existing, the track and the standalone file are skipped, and the
whole second run emits only an (existing-directory) `makedirs`. -/
theorem C8_destination_existence_idempotence_witness :
    trackEffects exFsAll exEncOk exCue "/music/A/album.flac" "96k"
      "/home/alice/opus/A" 1 exTrack = [] ∧
    standaloneFileEffects exFsAll exEncOk [] "/music" "/music/A" "b.flac" = [] ∧
    (∃ dd, Effect.makedirs "/home/alice/opus/A" = Effect.makedirs dd ∧
      exFsAll dd = true) :=
  ⟨C8_destination_existence_idempotence.1 exFsAll exEncOk exCue
      "/music/A/album.flac" "96k" "/home/alice/opus/A" 1 exTrack rfl,
   C8_destination_existence_idempotence.2.1 exFsAll exEncOk [] "/music"
      "/music/A" "b.flac" rfl,
   C8_destination_existence_idempotence.2.2 exFsAll exEncOk exParse "/music/A"
      exWalk (fun _ _ => rfl) (Effect.makedirs "/home/alice/opus/A")
      (by decide)⟩
